import Mathlib

/-!
Verification of the two debug scripts in ethersync (src/tools/dummy-jsonrpc.py
and src/tools/fake-daemon.py) against their natural-language specification.

The wire format is modelled as a list of characters; every frame the scripts
emit is pure ASCII (proved below), so one character corresponds to one byte on
the wire.  Python values that the scripts build with dict/list literals are
modelled by the inductive type Json; insertion order of dict keys is kept, as
json.dumps serialises dicts in insertion order.
-/

/-- JSON values as produced by json.loads and consumed by json.dumps.  Numbers
in the scripts are all integers, so num carries an Int. -/
inductive Json where
  | null
  | bool (b : Bool)
  | num (n : Int)
  | str (s : String)
  | arr (elems : List Json)
  | obj (fields : List (String × Json))

/-! ## Character helpers -/

def lbrace : Char := Char.ofNat 123

def rbrace : Char := Char.ofNat 125

def isDigitChar (c : Char) : Bool := 48 ≤ c.toNat && c.toNat ≤ 57

def digitVal (c : Char) : Nat := c.toNat - 48

/-- The decimal digit character for n % 10. -/
def digitChar (n : Nat) : Char := Char.ofNat (48 + n % 10)

/-- Lowercase hexadecimal digit character for n % 16 (json.dumps emits
lowercase hex in \uXXXX escapes). -/
def hexDigitChar (n : Nat) : Char :=
  if n % 16 < 10 then Char.ofNat (48 + n % 16) else Char.ofNat (87 + n % 16)

/-- Hexadecimal digit value accepted by json.loads in \uXXXX escapes. -/
def hexVal (c : Char) : Option Nat :=
  if 48 ≤ c.toNat && c.toNat ≤ 57 then some (c.toNat - 48)
  else if 97 ≤ c.toNat && c.toNat ≤ 102 then some (c.toNat - 87)
  else if 65 ≤ c.toNat && c.toNat ≤ 70 then some (c.toNat - 55)
  else none

/-- ASCII printable range 0x20 .. 0x7e. -/
def printableChar (c : Char) : Bool := 32 ≤ c.toNat && c.toNat ≤ 126

/-- Whitespace skipped by json.loads between tokens. -/
def isWsChar (c : Char) : Bool :=
  c.toNat = 32 || c.toNat = 9 || c.toNat = 10 || c.toNat = 13

/-- Whitespace stripped by Python bytes.strip(). -/
def pyStripChar (c : Char) : Bool :=
  c.toNat = 32 || c.toNat = 9 || c.toNat = 10 || c.toNat = 13 ||
  c.toNat = 11 || c.toNat = 12

/-! ## Decimal rendering of integers (Python str/int formatting used by
json.dumps for ints) -/

/-- Fuel-indexed digit emitter; fuel larger than n makes it total. -/
def natDigitsGo : Nat → Nat → List Char
  | 0, _ => []
  | f + 1, n =>
    if n < 10 then [digitChar n] else natDigitsGo f (n / 10) ++ [digitChar (n % 10)]

def natDigits (n : Nat) : List Char := natDigitsGo (n + 1) n

def encInt (i : Int) : List Char :=
  if i < 0 then '-' :: natDigits i.natAbs else natDigits i.toNat

/-! ## json.dumps model (default arguments: ensure_ascii=True, separators
(", ", ": "), dict insertion order preserved) -/

/-- The 4 hex digits of a \uXXXX escape. -/
def uEscDigits (n : Nat) : List Char :=
  [hexDigitChar (n / 4096), hexDigitChar (n / 256), hexDigitChar (n / 16),
   hexDigitChar n]

/-- How json.dumps (ensure_ascii=True) renders one character inside a string
literal: backslash and quote get two-character escapes, the five control
characters \b \t \n \f \r get short escapes, every other character outside
0x20 .. 0x7e becomes \uXXXX (a surrogate pair above 0xFFFF), and printable
ASCII is emitted verbatim. -/
def escChar (c : Char) : List Char :=
  if c = '\"' then ['\\', '\"']
  else if c = '\\' then ['\\', '\\']
  else if c.toNat = 8 then ['\\', 'b']
  else if c.toNat = 9 then ['\\', 't']
  else if c.toNat = 10 then ['\\', 'n']
  else if c.toNat = 12 then ['\\', 'f']
  else if c.toNat = 13 then ['\\', 'r']
  else if c.toNat < 32 || 126 < c.toNat then
    if c.toNat < 65536 then '\\' :: 'u' :: uEscDigits c.toNat
    else ('\\' :: 'u' :: uEscDigits (55296 + (c.toNat - 65536) / 1024)) ++
         ('\\' :: 'u' :: uEscDigits (56320 + (c.toNat - 65536) % 1024))
  else [c]

def escList : List Char → List Char
  | [] => []
  | c :: cs => escChar c ++ escList cs

/-- json.dumps rendering of a string literal. -/
def encStr (s : String) : List Char := '\"' :: (escList s.data ++ ['\"'])

mutual
def encJson : Json → List Char
  | .null => 'n' :: ['u', 'l', 'l']
  | .bool true => 't' :: ['r', 'u', 'e']
  | .bool false => 'f' :: ['a', 'l', 's', 'e']
  | .num i => encInt i
  | .str s => encStr s
  | .arr [] => ['[', ']']
  | .arr (x :: xs) => '[' :: ((encJson x ++ encArrRest xs) ++ [']'])
  | .obj [] => [lbrace, rbrace]
  | .obj (kv :: kvs) => lbrace :: ((encMember kv ++ encObjRest kvs) ++ [rbrace])
def encArrRest : List Json → List Char
  | [] => []
  | x :: xs => ',' :: ' ' :: (encJson x ++ encArrRest xs)
def encMember : String × Json → List Char
  | (k, v) => encStr k ++ (':' :: ' ' :: encJson v)
def encObjRest : List (String × Json) → List Char
  | [] => []
  | kv :: kvs => ',' :: ' ' :: (encMember kv ++ encObjRest kvs)
end

/-- json.dumps as a String. -/
def dumpsJson (j : Json) : String := String.mk (encJson j)

/-! ## Structural size used as parser fuel accounting -/

mutual
def sizeJ : Json → Nat
  | .null => 1
  | .bool _ => 1
  | .num _ => 1
  | .str _ => 1
  | .arr xs => 1 + sizeL xs
  | .obj kvs => 1 + sizeO kvs
def sizeL : List Json → Nat
  | [] => 1
  | x :: xs => 1 + sizeJ x + sizeL xs
def sizeO : List (String × Json) → Nat
  | [] => 1
  | kv :: kvs => 2 + sizeJ kv.2 + sizeO kvs
end

def sizeM (kv : String × Json) : Nat := 1 + sizeJ kv.2

/-! ## json.loads model -/

def skipWs : List Char → List Char
  | [] => []
  | c :: cs => if isWsChar c then skipWs cs else c :: cs

def addChar (c : Char) : Option (List Char × List Char) → Option (List Char × List Char)
  | some (s, r) => some (c :: s, r)
  | none => none

/-- The two-character escapes json.loads accepts after a backslash. -/
def decodeEsc (e : Char) : Option Char :=
  if e = '\"' then some '\"'
  else if e = '\\' then some '\\'
  else if e = '/' then some '/'
  else if e = 'b' then some (Char.ofNat 8)
  else if e = 'f' then some (Char.ofNat 12)
  else if e = 'n' then some '\n'
  else if e = 'r' then some '\r'
  else if e = 't' then some '\t'
  else none

/-- Reads one backslash-u-4-hex-digits escape, returning the code unit and
the remaining input. -/
def decodeUEsc : List Char → Option (Nat × List Char)
  | e :: u :: h1 :: h2 :: h3 :: h4 :: rest =>
    if e = '\\' && u = 'u' then
      match hexVal h1, hexVal h2, hexVal h3, hexVal h4 with
      | some a, some b, some c, some d => some (((a * 16 + b) * 16 + c) * 16 + d, rest)
      | _, _, _, _ => none
    else none
  | _ => none

/-- Decodes one character of a JSON string body, following py_scanstring:
a short escape, a \uXXXX escape (a high surrogate immediately followed by a
\uXXXX low surrogate is recombined into one character), or a verbatim
character; raw control characters below 0x20 are rejected (strict mode). -/
def decodeOne : List Char → Option (Char × List Char)
  | [] => none
  | c :: cs =>
    if c = '\\' then
      match cs with
      | [] => none
      | e :: cs2 =>
        match decodeEsc e with
        | some ch => some (ch, cs2)
        | none =>
          if e = 'u' then
            match decodeUEsc (c :: cs) with
            | some (n, cs3) =>
              if 55296 ≤ n && n ≤ 56319 then
                match decodeUEsc cs3 with
                | some (m, cs4) =>
                  if 56320 ≤ m && m ≤ 57343 then
                    some (Char.ofNat (65536 + (n - 55296) * 1024 + (m - 56320)), cs4)
                  else some (Char.ofNat n, cs3)
                | none => some (Char.ofNat n, cs3)
              else some (Char.ofNat n, cs3)
            | none => none
          else none
    else if c.toNat < 32 then none
    else some (c, cs)

/-- Fuel-indexed scanner for the remainder of a JSON string literal (the
opening quote already consumed): decode characters until the closing quote.
decodeOne always consumes at least one character, so fuel larger than the
input length makes the fuel irrelevant. -/
def psrGo : Nat → List Char → Option (List Char × List Char)
  | 0, _ => none
  | fuel + 1, cs =>
    match cs with
    | [] => none
    | c :: rest =>
      if c = '\"' then some ([], rest)
      else
        match decodeOne (c :: rest) with
        | some (ch, rest2) => addChar ch (psrGo fuel rest2)
        | none => none

/-- Scanner for the remainder of a JSON string literal, with the fuel
discharged. -/
def parseStringRest (cs : List Char) : Option (List Char × List Char) :=
  psrGo (cs.length + 1) cs

/-- Maximal run of decimal digits, folded into a number. -/
def parseDigitsGo (acc : Nat) : List Char → Nat × List Char
  | [] => (acc, [])
  | c :: cs =>
    if isDigitChar c then parseDigitsGo (acc * 10 + digitVal c) cs else (acc, c :: cs)

/-- True when the input cannot extend a digit run: empty, or headed by a
non-digit. -/
def noDigitHead : List Char → Bool
  | [] => true
  | c :: _ => !isDigitChar c

/-- Matches a literal character prefix, returning the input after it. -/
def stripLit : List Char → List Char → Option (List Char)
  | [], cs => some cs
  | l :: ls, c :: cs => if c = l then stripLit ls cs else none
  | _ :: _, [] => none

/-- A decimal integer token: optional minus sign, then a digit run. -/
def parseNum (c : Char) (cs : List Char) : Option (Json × List Char) :=
  if c = '-' then
    match cs with
    | d :: _ =>
      if isDigitChar d then
        some (.num (-((parseDigitsGo 0 cs).1 : Int)), (parseDigitsGo 0 cs).2)
      else none
    | [] => none
  else if isDigitChar c then
    some (.num ((parseDigitsGo (digitVal c) cs).1 : Int), (parseDigitsGo (digitVal c) cs).2)
  else none

/-- A string token (the opening quote already seen). -/
def parseStringTok (cs : List Char) : Option (Json × List Char) :=
  match parseStringRest cs with
  | some (s, r) => some (.str (String.mk s), r)
  | none => none

/-- Scalar JSON values: null, true, false, strings, integers. -/
def parseScalar : List Char → Option (Json × List Char)
  | [] => none
  | c :: cs =>
    if c = 'n' then
      match stripLit ['u', 'l', 'l'] cs with
      | some r => some (.null, r)
      | none => none
    else if c = 't' then
      match stripLit ['r', 'u', 'e'] cs with
      | some r => some (.bool true, r)
      | none => none
    else if c = 'f' then
      match stripLit ['a', 'l', 's', 'e'] cs with
      | some r => some (.bool false, r)
      | none => none
    else if c = '\"' then parseStringTok cs
    else parseNum c cs

mutual
def parseValue : Nat → List Char → Option (Json × List Char)
  | 0, _ => none
  | _ + 1, [] => none
  | fuel + 1, c :: cs =>
    if c = '[' then
      match skipWs cs with
      | [] => none
      | d :: r =>
        if d = ']' then some (.arr [], r)
        else
          match parseValue fuel (d :: r) with
          | some (v, cs2) =>
            match parseArrRest fuel cs2 with
            | some (vs, cs3) => some (.arr (v :: vs), cs3)
            | none => none
          | none => none
    else if c = lbrace then
      match skipWs cs with
      | [] => none
      | d :: r =>
        if d = rbrace then some (.obj [], r)
        else
          match parseMember fuel (d :: r) with
          | some (kv, cs2) =>
            match parseObjRest fuel cs2 with
            | some (kvs, cs3) => some (.obj (kv :: kvs), cs3)
            | none => none
          | none => none
    else parseScalar (c :: cs)
def parseMember : Nat → List Char → Option ((String × Json) × List Char)
  | 0, _ => none
  | _ + 1, [] => none
  | fuel + 1, c :: cs =>
    if c = '\"' then
      match parseStringRest cs with
      | some (k, cs2) =>
        match skipWs cs2 with
        | d :: cs3 =>
          if d = ':' then
            match parseValue fuel (skipWs cs3) with
            | some (v, cs4) => some ((String.mk k, v), cs4)
            | none => none
          else none
        | [] => none
      | none => none
    else none
def parseArrRest : Nat → List Char → Option (List Json × List Char)
  | 0, _ => none
  | fuel + 1, cs =>
    match skipWs cs with
    | [] => none
    | d :: r =>
      if d = ']' then some ([], r)
      else if d = ',' then
        match parseValue fuel (skipWs r) with
        | some (v, cs2) =>
          match parseArrRest fuel cs2 with
          | some (vs, cs3) => some (v :: vs, cs3)
          | none => none
        | none => none
      else none
def parseObjRest : Nat → List Char → Option (List (String × Json) × List Char)
  | 0, _ => none
  | fuel + 1, cs =>
    match skipWs cs with
    | [] => none
    | d :: r =>
      if d = rbrace then some ([], r)
      else if d = ',' then
        match parseMember fuel (skipWs r) with
        | some (kv, cs2) =>
          match parseObjRest fuel cs2 with
          | some (kvs, cs3) => some (kv :: kvs, cs3)
          | none => none
        | none => none
      else none
end

/-- json.loads: parse one value, allow surrounding whitespace, reject extra
data.  The fuel 2 * length + 2 dominates the structural size of any value
the input can denote (proved below for encoder outputs). -/
def loadsJson (cs : List Char) : Option Json :=
  match parseValue (2 * cs.length + 2) (skipWs cs) with
  | some (j, r) => if skipWs r = [] then some j else none
  | none => none

/-! ## fake-daemon.py: wire helpers -/

def dropStrip : List Char → List Char
  | [] => []
  | c :: cs => if pyStripChar c then dropStrip cs else c :: cs

/-- Python bytes.strip(): whitespace removed from both ends. -/
def pyStrip (cs : List Char) : List Char := (dropStrip (dropStrip cs).reverse).reverse

/-- bytes.split(b"\n")[0]: the prefix before the first newline. -/
def firstLineOf : List Char → List Char
  | [] => []
  | c :: cs => if c = '\n' then [] else c :: firstLineOf cs

/-- read_line in fake-daemon.py, applied to the byte chunk obtained from
conn.recv: strip, split on newlines, json.loads the first line.  none models
an uncaught json.JSONDecodeError. -/
def read_line_result (chunk : List Char) : Option Json :=
  loadsJson (firstLineOf (pyStrip chunk))

/-- send in fake-daemon.py: the bytes written for one message, namely
json.dumps output followed by one newline byte. -/
def send_model (j : Json) : List Char := encJson j ++ ['\n']

/-- conn.recv(1024) delivering k of the pending bytes: at most 1024 and at
most what is pending. -/
def recvChunk (pending : List Char) (k : Nat) : List Char := pending.take (min k 1024)

/-- One read_line call against a connection whose unread bytes are pending,
with the kernel delivering k bytes: the decoded result and the bytes left
unread on the connection afterwards.  Everything delivered into the chunk but
past the first line is dropped by read_line. -/
def read_line_step (pending : List Char) (k : Nat) : Option Json × List Char :=
  (read_line_result (recvChunk pending k), pending.drop (min k 1024))

/-! ## fake-daemon.py: connection handling -/

/-- Python dict lookup d[k] for a dict built by json.loads: with duplicate
keys the last occurrence wins; lookup on a non-dict (TypeError) and a missing
key (KeyError) both surface as none, modelling the uncaught exception. -/
def lookupLastKey (k : String) : List (String × Json) → Option Json
  | [] => none
  | kv :: rest =>
    match lookupLastKey k rest with
    | some r => some r
    | none => if kv.1 = k then some kv.2 else none

def pyDictGet (j : Json) (k : String) : Option Json :=
  match j with
  | .obj kvs => lookupLastKey k kvs
  | _ => none

def pyGet2 (j : Json) (k1 k2 : String) : Option Json :=
  match pyDictGet j k1 with
  | some x => pyDictGet x k2
  | none => none

/-- The response dict fake-daemon.py builds from a decoded open request:
jsonrpc 2.0, the id copied from the request, result "success".  none when
open["id"] raises. -/
def response_model (openMsg : Json) : Option Json :=
  match pyDictGet openMsg "id" with
  | some i => some (.obj [("jsonrpc", .str "2.0"), ("id", i), ("result", .str "success")])
  | none => none

/-- The delta list inside the_beautiful_edit: one range replacement,
(0,0)-(0,1) replaced by "AaA". -/
def fixedDeltaJson : Json :=
  .arr [.obj [("range", .obj [("start", .obj [("line", .num 0), ("character", .num 0)]),
                              ("end", .obj [("line", .num 0), ("character", .num 1)])]),
              ("replacement", .str "AaA")]]

/-- the_beautiful_edit in fake-daemon.py, as a function of the uri value
taken from open["params"]["uri"]. -/
def the_beautiful_edit (uriVal : Json) : Json :=
  .obj [("jsonrpc", .str "2.0"), ("method", .str "edit"),
        ("params", .obj [("uri", uriVal), ("revision", .num 0),
                         ("delta", fixedDeltaJson)])]

/-- An open request as the peers of fake-daemon.py send it (the shape of
dummy-jsonrpc.py messages and of Scenario A in the spec): jsonrpc 2.0, an id,
method open, params carrying a uri. -/
def openRequest (i : Int) (uri : String) : Json :=
  .obj [("jsonrpc", .str "2.0"), ("id", .num i), ("method", .str "open"),
        ("params", .obj [("uri", .str uri)])]

/-- Observable I/O events on one connection. -/
inductive Ev where
  | recvEv (chunk : List Char)
  | sendEv (bytes : List Char)

def Ev.isRecv : Ev → Bool
  | .recvEv _ => true
  | .sendEv _ => false

/-- How handling of one connection ends: crashed models an uncaught Python
exception (which kills the whole process); starved means the script is still
inside its loop, blocked in conn.recv waiting for bytes that never arrive. -/
inductive ConnEnd where
  | crashed
  | starved

/-- The two conn.send calls inside send: the JSON bytes, then one newline. -/
def sendEvents (j : Json) : List Ev := [.sendEv (encJson j), .sendEv ['\n']]

/-- The final while True loop: read_line repeatedly; a decode error crashes,
otherwise the result is discarded and the loop continues. -/
def drain : List (List Char) → List Ev × ConnEnd
  | [] => ([], .starved)
  | c :: cs =>
    match read_line_result c with
    | none => ([.recvEv c], .crashed)
    | some _ =>
      let p := drain cs
      (.recvEv c :: p.1, p.2)

/-- One accepted connection in fake-daemon.py, driven by the list of chunks
successive conn.recv calls deliver (an empty chunk models the peer closing
the stream).  Faithful to source order: read_line the open request, build the
response from open["id"], send it, only then read open["params"]["uri"],
send the_beautiful_edit, then drain forever. -/
def handleConn : List (List Char) → List Ev × ConnEnd
  | [] => ([], .starved)
  | c1 :: rest =>
    match read_line_result c1 with
    | none => ([.recvEv c1], .crashed)
    | some openMsg =>
      match response_model openMsg with
      | none => ([.recvEv c1], .crashed)
      | some resp =>
        match pyGet2 openMsg "params" "uri" with
        | none => (.recvEv c1 :: sendEvents resp, .crashed)
        | some uriVal =>
          let p := drain rest
          ((.recvEv c1 :: (sendEvents resp ++ sendEvents (the_beautiful_edit uriVal))) ++ p.1,
           p.2)

/-- Outcome of running the whole server against a queue of incoming
connections. -/
structure ServerRun where
  accepted : Nat
  outcome : ConnEnd

/-- The outer while True loop of fake-daemon.py.  The inner drain loop has no
break and no exception handler anywhere wraps it, so after accepting the
first connection the process either crashes (uncaught exception) or blocks in
recv forever; control never returns to server.accept. -/
def serverRun : List (List (List Char)) → ServerRun
  | [] => ⟨0, .starved⟩
  | conn :: _ =>
    match (handleConn conn).2 with
    | .crashed => ⟨1, .crashed⟩
    | .starved => ⟨1, .starved⟩

/-! ## dummy-jsonrpc.py -/

inductive MsgType where
  | openMsg
  | editMsg

/-- uri = "file://{}".format(Path(args.file).resolve()), as a function of the
already-resolved path. -/
def dummyUri (resolvedPath : String) : String := "file://" ++ resolvedPath

/-- The messages dict of dummy-jsonrpc.py, keyed by --message-type, with the
exact key insertion order of the source. -/
def dummyMessage : MsgType → String → Json
  | .openMsg, uri =>
      .obj [("jsonrpc", .str "2.0"), ("id", .num 1), ("method", .str "open"),
            ("params", .obj [("uri", .str uri)])]
  | .editMsg, uri =>
      .obj [("jsonrpc", .str "2.0"), ("method", .str "edit"), ("id", .num 2),
            ("params",
             .obj [("uri", .str uri), ("revision", .num 0),
                   ("delta",
                    .arr [.obj [("range",
                                 .obj [("start", .obj [("line", .num 0), ("character", .num 0)]),
                                       ("end", .obj [("line", .num 0), ("character", .num 0)])]),
                                ("replacement", .str "hello, world")]])])]

/-- message_json = json.dumps(messages[args.message_type]). -/
def message_json (t : MsgType) (uri : String) : List Char :=
  encJson (dummyMessage t uri)

/-- The full stdout of dummy-jsonrpc.py: the f-string
Content-Length: N CR LF CR LF body, plus the newline print appends.
N is len(message_json), the number of characters of the JSON text. -/
def dummyOutput (t : MsgType) (uri : String) : List Char :=
  ("Content-Length: ".data ++ natDigits (message_json t uri).length) ++
  ('\r' :: '\n' :: '\r' :: '\n' :: message_json t uri) ++ ['\n']

/-- UTF-8 size in bytes of one character (print writes str to a UTF-8
stdout). -/
def charBytes (c : Char) : Nat :=
  if c.toNat < 128 then 1
  else if c.toNat < 2048 then 2
  else if c.toNat < 65536 then 3
  else 4

/-- UTF-8 byte count of a character list. -/
def byteLen : List Char → Nat
  | [] => 0
  | c :: cs => charBytes c + byteLen cs

/-! ## fake-daemon.py: socket file removal -/

inductive FsEntry where
  | file
  | dir
  | sock

def socket_path : String := "/tmp/teamtype-test/.teamtype/socket"

/-- Result of the startup block: either the (possibly updated) filesystem, or
the OSError os.remove raises when the path names a directory. -/
inductive RemoveOutcome where
  | ok (fs : String → Option FsEntry)
  | isADirectoryError

/-- if os.path.exists(socket_path): os.remove(socket_path).  os.remove
deletes any non-directory entry and raises IsADirectoryError on a
directory. -/
def removeIfExists (fs : String → Option FsEntry) : RemoveOutcome :=
  match fs socket_path with
  | none => .ok fs
  | some .dir => .isADirectoryError
  | some _ => .ok (fun p => if p = socket_path then none else fs p)

/-! # Theorems -/

/-! ## Character arithmetic facts -/

theorem char_toNat_valid (c : Char) : c.toNat < 55296 ∨ (57343 < c.toNat ∧ c.toNat < 1114112) := by
  rcases c.valid with h | ⟨h1, h2⟩
  · exact Or.inl (UInt32.toNat_lt_of_lt (by decide) h)
  · exact Or.inr ⟨UInt32.lt_toNat_of_lt (by decide) h1, UInt32.toNat_lt_of_lt (by decide) h2⟩

theorem char_ne_of_toNat_ne {c d : Char} (h : c.toNat ≠ d.toNat) : c ≠ d :=
  fun he => h (he ▸ rfl)

theorem digitChar_isDigit (n : Nat) : isDigitChar (digitChar n) = true := by
  unfold digitChar
  have h : n % 10 < 10 := Nat.mod_lt _ (by omega)
  set k := n % 10 with hk
  interval_cases k <;> decide

theorem digitVal_digitChar (n : Nat) : digitVal (digitChar n) = n % 10 := by
  unfold digitChar
  have h : n % 10 < 10 := Nat.mod_lt _ (by omega)
  set k := n % 10 with hk
  interval_cases k <;> decide

theorem hexVal_hexDigitChar (n : Nat) : hexVal (hexDigitChar n) = some (n % 16) := by
  unfold hexDigitChar
  have h : n % 16 < 16 := Nat.mod_lt _ (by omega)
  set k := n % 16 with hk
  interval_cases k <;> decide

theorem printable_digitChar (n : Nat) : printableChar (digitChar n) = true := by
  unfold digitChar
  have h : n % 10 < 10 := Nat.mod_lt _ (by omega)
  set k := n % 10 with hk
  interval_cases k <;> decide

theorem printable_hexDigitChar (n : Nat) : printableChar (hexDigitChar n) = true := by
  unfold hexDigitChar
  have h : n % 16 < 16 := Nat.mod_lt _ (by omega)
  set k := n % 16 with hk
  interval_cases k <;> decide

/-! ## Decimal digit strings -/

theorem natDigitsGo_shape (f : Nat) :
    ∀ n, n < f →
      (∃ c t, natDigitsGo f n = c :: t ∧ isDigitChar c = true) ∧
      (∃ t c, natDigitsGo f n = t ++ [c] ∧ isDigitChar c = true) ∧
      (∀ c ∈ natDigitsGo f n, isDigitChar c = true) := by
  induction f with
  | zero => intro n h; omega
  | succ f ih =>
    intro n h
    by_cases h10 : n < 10
    · refine ⟨⟨digitChar n, [], by simp [natDigitsGo, h10], digitChar_isDigit n⟩,
        ⟨[], digitChar n, by simp [natDigitsGo, h10], digitChar_isDigit n⟩, ?_⟩
      intro c hc
      simp [natDigitsGo, h10] at hc
      subst hc
      exact digitChar_isDigit n
    · have hdiv : n / 10 < f := by omega
      obtain ⟨⟨c, t, hct, hcd⟩, _, hall⟩ := ih (n / 10) hdiv
      have heq : natDigitsGo (f + 1) n = natDigitsGo f (n / 10) ++ [digitChar (n % 10)] := by
        simp [natDigitsGo, h10]
      refine ⟨⟨c, t ++ [digitChar (n % 10)], by simp [heq, hct], hcd⟩,
        ⟨natDigitsGo f (n / 10), digitChar (n % 10), heq, digitChar_isDigit (n % 10)⟩, ?_⟩
      intro d hd
      rw [heq] at hd
      rcases List.mem_append.mp hd with hd | hd
      · exact hall d hd
      · simp at hd
        subst hd
        exact digitChar_isDigit (n % 10)

theorem natDigitsGo_foldl (f : Nat) :
    ∀ n acc, n < f →
      List.foldl (fun a c => a * 10 + digitVal c) acc (natDigitsGo f n) =
        acc * 10 ^ (natDigitsGo f n).length + n := by
  induction f with
  | zero => intro n acc h; omega
  | succ f ih =>
    intro n acc h
    by_cases h10 : n < 10
    · simp [natDigitsGo, h10, digitVal_digitChar]
    · have hdiv : n / 10 < f := by omega
      have heq : natDigitsGo (f + 1) n = natDigitsGo f (n / 10) ++ [digitChar (n % 10)] := by
        simp [natDigitsGo, h10]
      rw [heq, List.foldl_append, ih (n / 10) acc hdiv]
      simp [digitVal_digitChar, List.length_append, pow_succ]
      have hmod := Nat.div_add_mod n 10
      ring_nf
      omega

/-! ## Digit-run parsing -/

theorem parseDigitsGo_run (ds : List Char) :
    ∀ acc rest, (∀ c ∈ ds, isDigitChar c = true) → noDigitHead rest = true →
      parseDigitsGo acc (ds ++ rest) =
        (List.foldl (fun a c => a * 10 + digitVal c) acc ds, rest) := by
  induction ds with
  | nil =>
    intro acc rest _ hrest
    match rest, hrest with
    | [], _ => rfl
    | c :: cs, hrest =>
      have : isDigitChar c = false := by
        simpa [noDigitHead] using hrest
      simp [parseDigitsGo, this]
  | cons d ds ih =>
    intro acc rest hds hrest
    have hd : isDigitChar d = true := hds d (List.mem_cons_self d ds)
    simp only [List.cons_append, parseDigitsGo, hd, if_true, List.foldl_cons]
    exact ih _ rest (fun c hc => hds c (List.mem_cons_of_mem d hc)) hrest

theorem parse_natDigits (n : Nat) (rest : List Char) (hrest : noDigitHead rest = true) :
    parseDigitsGo 0 (natDigits n ++ rest) = (n, rest) := by
  obtain ⟨_, _, hall⟩ := natDigitsGo_shape (n + 1) n (by omega)
  rw [natDigits, parseDigitsGo_run _ 0 rest hall hrest,
    natDigitsGo_foldl (n + 1) n 0 (by omega)]
  simp

/-! ## String-escape round trip -/

theorem hex4_assemble (t : Nat) (h : t < 65536) :
    ((t / 4096 % 16 * 16 + t / 256 % 16) * 16 + t / 16 % 16) * 16 + t % 16 = t := by
  omega

theorem decodeUEsc_uEscDigits (t : Nat) (h : t < 65536) (rest : List Char) :
    decodeUEsc ('\\' :: 'u' :: (uEscDigits t ++ rest)) = some (t, rest) := by
  simp [uEscDigits, decodeUEsc, hexVal_hexDigitChar, hex4_assemble t h]

theorem decodeOne_uEsc_single (t : Nat) (h : t < 65536) (hns : ¬(55296 ≤ t ∧ t ≤ 56319))
    (cs : List Char) :
    decodeOne ('\\' :: 'u' :: (uEscDigits t ++ cs)) = some (Char.ofNat t, cs) := by
  have hd : (decide (55296 ≤ t) && decide (t ≤ 56319)) = false := by
    rcases Nat.lt_or_ge t 55296 with h' | h'
    · simp [Nat.not_le.mpr h']
    · have h2 : ¬(t ≤ 56319) := by
        rcases Decidable.em (t ≤ 56319) with h3 | h3
        · exact absurd ⟨h', h3⟩ hns
        · exact h3
      simp [h2]
  simp [decodeOne, decodeEsc, decodeUEsc_uEscDigits t h, hd]

theorem decodeOne_uEsc_pair (t : Nat) (h1 : 65536 ≤ t) (h2 : t < 1114112) (cs : List Char) :
    decodeOne ('\\' :: 'u' ::
        (uEscDigits (55296 + (t - 65536) / 1024) ++
          ('\\' :: 'u' :: (uEscDigits (56320 + (t - 65536) % 1024) ++ cs)))) =
      some (Char.ofNat t, cs) := by
  have hhi : 55296 + (t - 65536) / 1024 < 65536 := by omega
  have hlo : 56320 + (t - 65536) % 1024 < 65536 := by omega
  have hc12 : (decide (55296 ≤ 55296 + (t - 65536) / 1024) &&
      decide (55296 + (t - 65536) / 1024 ≤ 56319)) = true := by
    have a1 : 55296 ≤ 55296 + (t - 65536) / 1024 := by omega
    have a2 : 55296 + (t - 65536) / 1024 ≤ 56319 := by omega
    simp [a1, a2]
  have hc34 : (decide (56320 ≤ 56320 + (t - 65536) % 1024) &&
      decide (56320 + (t - 65536) % 1024 ≤ 57343)) = true := by
    have a1 : 56320 ≤ 56320 + (t - 65536) % 1024 := by omega
    have a2 : 56320 + (t - 65536) % 1024 ≤ 57343 := by omega
    simp [a1, a2]
  have hdu : decodeEsc 'u' = none := by decide
  rw [decodeOne]
  simp only [reduceIte, hdu]
  rw [decodeUEsc_uEscDigits _ hhi]
  simp only [hc12, reduceIte]
  rw [decodeUEsc_uEscDigits _ hlo]
  simp only [hc34, reduceIte]
  rw [show (65536 + (55296 + (t - 65536) / 1024 - 55296) * 1024 +
      (56320 + (t - 65536) % 1024 - 56320)) = t from by omega]

theorem decodeOne_escChar (c : Char) (cs : List Char) :
    decodeOne (escChar c ++ cs) = some (c, cs) := by
  have hv := char_toNat_valid c
  unfold escChar
  split_ifs with h1 h2 h3 h4 h5 h6 h7 h8 h9
  · subst h1
    simp [decodeOne, decodeEsc]
  · subst h2
    simp [decodeOne, decodeEsc]
  · have hc : c = Char.ofNat 8 := by rw [← Char.ofNat_toNat c, h3]
    rw [hc]
    simp [decodeOne, decodeEsc]
  · have hc : c = Char.ofNat 9 := by rw [← Char.ofNat_toNat c, h4]
    rw [hc]
    simp [decodeOne, decodeEsc]
  · have hc : c = Char.ofNat 10 := by rw [← Char.ofNat_toNat c, h5]
    rw [hc]
    simp [decodeOne, decodeEsc]
  · have hc : c = Char.ofNat 12 := by rw [← Char.ofNat_toNat c, h6]
    rw [hc]
    simp [decodeOne, decodeEsc]
  · have hc : c = Char.ofNat 13 := by rw [← Char.ofNat_toNat c, h7]
    rw [hc]
    simp [decodeOne, decodeEsc]
  · simp only [List.cons_append]
    have hns : ¬(55296 ≤ c.toNat ∧ c.toNat ≤ 56319) := by
      rcases hv with h | h
      · omega
      · omega
    rw [decodeOne_uEsc_single c.toNat h9 hns cs, Char.ofNat_toNat]
  · simp only [List.cons_append, List.append_assoc]
    have hlt : c.toNat < 1114112 := by
      rcases hv with h | h
      · omega
      · omega
    have hge : 65536 ≤ c.toNat := by omega
    rw [decodeOne_uEsc_pair c.toNat hge hlt cs, Char.ofNat_toNat]
  · simp only [List.singleton_append]
    simp only [Bool.or_eq_true, decide_eq_true_eq, not_or] at h8
    have hge : ¬ c.toNat < 32 := by omega
    simp [decodeOne, h2, hge]

theorem escChar_head_ne_quote (c : Char) : ∃ c0 t0, escChar c = c0 :: t0 ∧ c0 ≠ '\"' := by
  unfold escChar
  split_ifs with h1 h2 h3 h4 h5 h6 h7 h8 h9
  · exact ⟨'\\', _, rfl, by decide⟩
  · exact ⟨'\\', _, rfl, by decide⟩
  · exact ⟨'\\', _, rfl, by decide⟩
  · exact ⟨'\\', _, rfl, by decide⟩
  · exact ⟨'\\', _, rfl, by decide⟩
  · exact ⟨'\\', _, rfl, by decide⟩
  · exact ⟨'\\', _, rfl, by decide⟩
  · exact ⟨'\\', _, rfl, by decide⟩
  · exact ⟨'\\', 'u' :: (uEscDigits (55296 + (c.toNat - 65536) / 1024) ++
      ('\\' :: 'u' :: uEscDigits (56320 + (c.toNat - 65536) % 1024))), by simp, by decide⟩
  · exact ⟨c, [], rfl, h1⟩

theorem uEscDigits_printable (t : Nat) : ∀ d ∈ uEscDigits t, printableChar d = true := by
  intro d hd
  simp [uEscDigits] at hd
  rcases hd with h | h | h | h <;> subst h <;> exact printable_hexDigitChar _

theorem uEscFull_printable (t : Nat) :
    ∀ d ∈ ('\\' :: 'u' :: uEscDigits t), printableChar d = true := by
  intro d hd
  rcases List.mem_cons.mp hd with h | hd2
  · subst h; decide
  · rcases List.mem_cons.mp hd2 with h | hd3
    · subst h; decide
    · exact uEscDigits_printable t d hd3

theorem pair_printable (a b : Char) (ha : printableChar a = true)
    (hb : printableChar b = true) : ∀ d ∈ [a, b], printableChar d = true := by
  intro d hd
  rcases List.mem_cons.mp hd with h | hd2
  · subst h; exact ha
  · rcases List.mem_cons.mp hd2 with h | hd3
    · subst h; exact hb
    · simp at hd3

theorem escChar_printable (c : Char) : ∀ d ∈ escChar c, printableChar d = true := by
  unfold escChar
  split_ifs with h1 h2 h3 h4 h5 h6 h7 h8 h9
  · exact pair_printable _ _ (by decide) (by decide)
  · exact pair_printable _ _ (by decide) (by decide)
  · exact pair_printable _ _ (by decide) (by decide)
  · exact pair_printable _ _ (by decide) (by decide)
  · exact pair_printable _ _ (by decide) (by decide)
  · exact pair_printable _ _ (by decide) (by decide)
  · exact pair_printable _ _ (by decide) (by decide)
  · intro d hd
    exact uEscFull_printable _ d hd
  · intro d hd
    rcases List.mem_append.mp hd with h | h
    · exact uEscFull_printable _ d h
    · exact uEscFull_printable _ d h
  · intro d hd
    simp only [Bool.or_eq_true, decide_eq_true_eq, not_or] at h8
    simp at hd
    subst hd
    simp only [printableChar, Bool.and_eq_true, decide_eq_true_eq]
    omega

theorem escList_printable (l : List Char) : ∀ d ∈ escList l, printableChar d = true := by
  induction l with
  | nil => intro d hd; simp [escList] at hd
  | cons c l ih =>
    intro d hd
    simp only [escList] at hd
    rcases List.mem_append.mp hd with h | h
    · exact escChar_printable c d h
    · exact ih d h

theorem escList_length_le (l : List Char) : l.length ≤ (escList l).length := by
  induction l with
  | nil => simp [escList]
  | cons c l ih =>
    obtain ⟨c0, t0, he, _⟩ := escChar_head_ne_quote c
    simp only [escList, List.length_append, List.length_cons, he]
    omega

theorem psrGo_escList (l : List Char) : ∀ f cs, l.length < f →
    psrGo f (escList l ++ '\"' :: cs) = some (l, cs) := by
  induction l with
  | nil =>
    intro f cs hf
    cases f with
    | zero => omega
    | succ f => simp [escList, psrGo]
  | cons c l ih =>
    intro f cs hf
    cases f with
    | zero => omega
    | succ f =>
      have hshape : escList (c :: l) ++ '\"' :: cs = escChar c ++ (escList l ++ '\"' :: cs) := by
        simp [escList, List.append_assoc]
      obtain ⟨c0, t0, he, hq⟩ := escChar_head_ne_quote c
      rw [hshape, he, List.cons_append, psrGo]
      simp only [if_neg hq]
      rw [← List.cons_append, ← he, decodeOne_escChar c]
      show addChar c (psrGo f (escList l ++ '\"' :: cs)) = some (c :: l, cs)
      rw [ih f cs (by simpa using hf)]
      rfl

theorem parseStringRest_escList (l cs : List Char) :
    parseStringRest (escList l ++ '\"' :: cs) = some (l, cs) := by
  unfold parseStringRest
  apply psrGo_escList
  have := escList_length_le l
  simp only [List.length_append, List.length_cons]
  omega

/-! ## Shape facts about encoder output -/

theorem ws_imp_strip (c : Char) (h : isWsChar c = true) : pyStripChar c = true := by
  simp only [isWsChar, Bool.or_eq_true, decide_eq_true_eq] at h
  simp only [pyStripChar, Bool.or_eq_true, decide_eq_true_eq]
  omega

theorem strip_false_imp_ws_false (c : Char) (h : pyStripChar c = false) : isWsChar c = false := by
  rcases hb : isWsChar c with _ | _
  · rfl
  · rw [ws_imp_strip c hb] at h
    exact absurd h (by simp)

theorem digit_facts (c : Char) (h : isDigitChar c = true) :
    pyStripChar c = false ∧ printableChar c = true ∧ c ≠ ']' ∧ c ≠ ',' ∧ c ≠ '\n' := by
  simp only [isDigitChar, Bool.and_eq_true, decide_eq_true_eq] at h
  refine ⟨?_, ?_, ?_, ?_, ?_⟩
  · simp only [pyStripChar, Bool.or_eq_true, decide_eq_true_eq]
    simp only [Bool.or_eq_false_iff, decide_eq_false_iff_not]
    omega
  · simp only [printableChar, Bool.and_eq_true, decide_eq_true_eq]
    omega
  · refine char_ne_of_toNat_ne ?_
    have : (']' : Char).toNat = 93 := by decide
    omega
  · refine char_ne_of_toNat_ne ?_
    have : ((',' : Char)).toNat = 44 := by decide
    omega
  · refine char_ne_of_toNat_ne ?_
    have : (('\n' : Char)).toNat = 10 := by decide
    omega

theorem encInt_head (i : Int) :
    ∃ c0 t0, encInt i = c0 :: t0 ∧ pyStripChar c0 = false ∧ c0 ≠ ']' ∧ c0 ≠ ',' := by
  unfold encInt
  split_ifs with h
  · exact ⟨'-', _, rfl, by decide, by decide, by decide⟩
  · obtain ⟨⟨c, t, hct, hd⟩, _, _⟩ := natDigitsGo_shape (i.toNat + 1) i.toNat (by omega)
    obtain ⟨h1, _, h3, h4, _⟩ := digit_facts c hd
    exact ⟨c, t, by rw [natDigits, hct], h1, h3, h4⟩

theorem encInt_last (i : Int) :
    ∃ t0 c0, encInt i = t0 ++ [c0] ∧ pyStripChar c0 = false := by
  unfold encInt
  split_ifs with h
  · obtain ⟨_, ⟨t, c, hct, hd⟩, _⟩ := natDigitsGo_shape (i.natAbs + 1) i.natAbs (by omega)
    obtain ⟨h1, _, _, _, _⟩ := digit_facts c hd
    exact ⟨'-' :: t, c, by rw [natDigits, hct]; simp, h1⟩
  · obtain ⟨_, ⟨t, c, hct, hd⟩, _⟩ := natDigitsGo_shape (i.toNat + 1) i.toNat (by omega)
    obtain ⟨h1, _, _, _, _⟩ := digit_facts c hd
    exact ⟨t, c, by rw [natDigits, hct], h1⟩

theorem encJson_head : ∀ j : Json,
    ∃ c0 t0, encJson j = c0 :: t0 ∧ pyStripChar c0 = false ∧ c0 ≠ ']' ∧ c0 ≠ ','
  | .null => ⟨'n', _, rfl, by decide, by decide, by decide⟩
  | .bool true => ⟨'t', _, rfl, by decide, by decide, by decide⟩
  | .bool false => ⟨'f', _, rfl, by decide, by decide, by decide⟩
  | .num i => by
      obtain ⟨c0, t0, he, h1, h2, h3⟩ := encInt_head i
      exact ⟨c0, t0, by simp [encJson, he], h1, h2, h3⟩
  | .str s => ⟨'\"', _, rfl, by decide, by decide, by decide⟩
  | .arr [] => ⟨'[', _, rfl, by decide, by decide, by decide⟩
  | .arr (x :: xs) => ⟨'[', _, rfl, by decide, by decide, by decide⟩
  | .obj [] => ⟨lbrace, _, rfl, by decide, by decide, by decide⟩
  | .obj (kv :: kvs) => ⟨lbrace, _, rfl, by decide, by decide, by decide⟩

theorem encJson_last : ∀ j : Json,
    ∃ t0 c0, encJson j = t0 ++ [c0] ∧ pyStripChar c0 = false
  | .null => ⟨['n', 'u', 'l'], 'l', rfl, by decide⟩
  | .bool true => ⟨['t', 'r', 'u'], 'e', rfl, by decide⟩
  | .bool false => ⟨['f', 'a', 'l', 's'], 'e', rfl, by decide⟩
  | .num i => by
      obtain ⟨t0, c0, he, h1⟩ := encInt_last i
      exact ⟨t0, c0, by simp [encJson, he], h1⟩
  | .str s => ⟨'\"' :: escList s.data, '\"', by simp [encJson, encStr], by decide⟩
  | .arr [] => ⟨['['], ']', rfl, by decide⟩
  | .arr (x :: xs) =>
      ⟨'[' :: (encJson x ++ encArrRest xs), ']', by simp [encJson], by decide⟩
  | .obj [] => ⟨[lbrace], rbrace, rfl, by decide⟩
  | .obj (kv :: kvs) =>
      ⟨lbrace :: (encMember kv ++ encObjRest kvs), rbrace, by simp [encJson], by decide⟩

theorem encInt_printable (i : Int) : ∀ c ∈ encInt i, printableChar c = true := by
  unfold encInt
  split_ifs with h
  · intro c hc
    rcases List.mem_cons.mp hc with h' | h'
    · subst h'; decide
    · obtain ⟨_, _, hall⟩ := natDigitsGo_shape (i.natAbs + 1) i.natAbs (by omega)
      exact (digit_facts c (hall c (by simpa [natDigits] using h'))).2.1
  · intro c hc
    obtain ⟨_, _, hall⟩ := natDigitsGo_shape (i.toNat + 1) i.toNat (by omega)
    exact (digit_facts c (hall c (by simpa [natDigits] using hc))).2.1

theorem encStr_printable (s : String) : ∀ c ∈ encStr s, printableChar c = true := by
  intro c hc
  simp only [encStr, List.mem_cons, List.mem_append] at hc
  rcases hc with h | h | h
  · subst h; decide
  · exact escList_printable _ c h
  · simp at h
    subst h; decide

mutual
theorem encJson_printable : ∀ j : Json, ∀ c ∈ encJson j, printableChar c = true
  | .null => by
      intro c hc
      simp only [encJson, List.mem_cons] at hc
      rcases hc with h | h | h | h | h <;> first | (subst h; decide) | simp at h
  | .bool true => by
      intro c hc
      simp only [encJson, List.mem_cons] at hc
      rcases hc with h | h | h | h | h <;> first | (subst h; decide) | simp at h
  | .bool false => by
      intro c hc
      simp only [encJson, List.mem_cons] at hc
      rcases hc with h | h | h | h | h | h <;> first | (subst h; decide) | simp at h
  | .num i => by
      intro c hc
      exact encInt_printable i c (by simpa [encJson] using hc)
  | .str s => by
      intro c hc
      exact encStr_printable s c (by simpa [encJson] using hc)
  | .arr [] => by
      intro c hc
      simp only [encJson, List.mem_cons] at hc
      rcases hc with h | h | h <;> first | (subst h; decide) | simp at h
  | .arr (x :: xs) => by
      intro c hc
      simp only [encJson, List.mem_cons, List.mem_append, List.mem_singleton] at hc
      rcases hc with h | (h | h) | h
      · subst h; decide
      · exact encJson_printable x c h
      · exact encArrRest_printable xs c h
      · rcases h with h | h
        · subst h; decide
        · simp at h
  | .obj [] => by
      intro c hc
      simp only [encJson, List.mem_cons] at hc
      rcases hc with h | h | h <;> first | (subst h; decide) | simp at h
  | .obj (kv :: kvs) => by
      intro c hc
      simp only [encJson, List.mem_cons, List.mem_append, List.mem_singleton] at hc
      rcases hc with h | (h | h) | h
      · subst h; decide
      · exact encMember_printable kv c h
      · exact encObjRest_printable kvs c h
      · rcases h with h | h
        · subst h; decide
        · simp at h
theorem encArrRest_printable : ∀ xs : List Json, ∀ c ∈ encArrRest xs, printableChar c = true
  | [] => by
      intro c hc
      simp [encArrRest] at hc
  | x :: xs => by
      intro c hc
      simp only [encArrRest, List.mem_cons, List.mem_append] at hc
      rcases hc with h | h | h | h
      · subst h; decide
      · subst h; decide
      · exact encJson_printable x c h
      · exact encArrRest_printable xs c h
theorem encMember_printable : ∀ kv : String × Json, ∀ c ∈ encMember kv, printableChar c = true
  | (k, v) => by
      intro c hc
      simp only [encMember, List.mem_append, List.mem_cons] at hc
      rcases hc with h | h | h | h
      · exact encStr_printable k c h
      · subst h; decide
      · subst h; decide
      · exact encJson_printable v c h
theorem encObjRest_printable :
    ∀ kvs : List (String × Json), ∀ c ∈ encObjRest kvs, printableChar c = true
  | [] => by
      intro c hc
      simp [encObjRest] at hc
  | kv :: kvs => by
      intro c hc
      simp only [encObjRest, List.mem_cons, List.mem_append] at hc
      rcases hc with h | h | h | h
      · subst h; decide
      · subst h; decide
      · exact encMember_printable kv c h
      · exact encObjRest_printable kvs c h
end

/-! ## Size bound: parser fuel accounting -/

theorem encStr_length (s : String) : 2 ≤ (encStr s).length := by
  simp [encStr]

theorem encInt_length (i : Int) : 1 ≤ (encInt i).length := by
  obtain ⟨c0, t0, he, _⟩ := encInt_head i
  simp [he]

mutual
theorem sizeJ_le : ∀ j : Json, sizeJ j ≤ 2 * (encJson j).length
  | .null => by simp [sizeJ, encJson]
  | .bool true => by simp [sizeJ, encJson]
  | .bool false => by simp [sizeJ, encJson]
  | .num i => by
      have := encInt_length i
      simp only [sizeJ, encJson]
      omega
  | .str s => by
      have := encStr_length s
      simp only [sizeJ, encJson]
      omega
  | .arr [] => by simp [sizeJ, sizeL, encJson]
  | .arr (x :: xs) => by
      have h1 := sizeJ_le x
      have h2 := sizeL_le xs
      simp only [sizeJ, sizeL, encJson, List.length_cons, List.length_append,
        List.length_singleton]
      omega
  | .obj [] => by simp [sizeJ, sizeO, encJson]
  | .obj (kv :: kvs) => by
      have h1 := sizeJ_le kv.2
      have h2 := sizeO_le kvs
      have h3 := encStr_length kv.1
      have h4 : (encMember kv).length = (encStr kv.1).length + 2 + (encJson kv.2).length := by
        obtain ⟨k, v⟩ := kv
        simp [encMember]
        omega
      simp only [sizeJ, sizeO, encJson, List.length_cons, List.length_append,
        List.length_singleton]
      omega
theorem sizeL_le : ∀ xs : List Json, sizeL xs ≤ 2 * (encArrRest xs).length + 2
  | [] => by simp [sizeL, encArrRest]
  | x :: xs => by
      have h1 := sizeJ_le x
      have h2 := sizeL_le xs
      simp only [sizeL, encArrRest, List.length_cons, List.length_append]
      omega
theorem sizeO_le : ∀ kvs : List (String × Json), sizeO kvs ≤ 2 * (encObjRest kvs).length + 2
  | [] => by simp [sizeO, encObjRest]
  | kv :: kvs => by
      have h1 := sizeJ_le kv.2
      have h2 := sizeO_le kvs
      have h3 := encStr_length kv.1
      have h4 : (encMember kv).length = (encStr kv.1).length + 2 + (encJson kv.2).length := by
        obtain ⟨k, v⟩ := kv
        simp [encMember]
        omega
      simp only [sizeO, encObjRest, List.length_cons, List.length_append]
      omega
end

/-! ## Round trip: json.loads of json.dumps output -/

theorem skipWs_cons_false {c : Char} (cs : List Char) (h : isWsChar c = false) :
    skipWs (c :: cs) = c :: cs := by
  simp [skipWs, h]

theorem sizeJ_pos (j : Json) : 1 ≤ sizeJ j := by
  cases j <;> simp [sizeJ]

theorem sizeL_pos (xs : List Json) : 1 ≤ sizeL xs := by
  cases xs <;> simp [sizeL] <;> omega

theorem sizeO_pos (kvs : List (String × Json)) : 1 ≤ sizeO kvs := by
  cases kvs <;> simp [sizeO] <;> omega

theorem noDigitHead_encArrRest (xs : List Json) (rest : List Char) :
    noDigitHead (encArrRest xs ++ ']' :: rest) = true := by
  cases xs <;> simp [encArrRest, noDigitHead] <;> decide

theorem noDigitHead_encObjRest (kvs : List (String × Json)) (rest : List Char) :
    noDigitHead (encObjRest kvs ++ rbrace :: rest) = true := by
  cases kvs <;> simp [encObjRest, noDigitHead] <;> decide

theorem digit_dispatch (c : Char) (h : isDigitChar c = true) :
    c ≠ 'n' ∧ c ≠ 't' ∧ c ≠ 'f' ∧ c ≠ '\"' ∧ c ≠ '-' ∧ c ≠ '[' ∧ c ≠ lbrace := by
  simp only [isDigitChar, Bool.and_eq_true, decide_eq_true_eq] at h
  refine ⟨char_ne_of_toNat_ne ?_, char_ne_of_toNat_ne ?_, char_ne_of_toNat_ne ?_,
    char_ne_of_toNat_ne ?_, char_ne_of_toNat_ne ?_, char_ne_of_toNat_ne ?_,
    char_ne_of_toNat_ne ?_⟩
  · have : ('n' : Char).toNat = 110 := by decide
    omega
  · have : ('t' : Char).toNat = 116 := by decide
    omega
  · have : ('f' : Char).toNat = 102 := by decide
    omega
  · have : ('\"' : Char).toNat = 34 := by decide
    omega
  · have : ('-' : Char).toNat = 45 := by decide
    omega
  · have : ('[' : Char).toNat = 91 := by decide
    omega
  · have : lbrace.toNat = 123 := by decide
    omega

theorem n_ne_lb : (('n' : Char) = lbrace) = False := by decide

theorem t_ne_lb : (('t' : Char) = lbrace) = False := by decide

theorem f_ne_lb : (('f' : Char) = lbrace) = False := by decide

theorem q_ne_lb : (('\"' : Char) = lbrace) = False := by decide

theorem m_ne_lb : (('-' : Char) = lbrace) = False := by decide

theorem comma_ne_rb : (((',') : Char) = rbrace) = False := by decide

theorem q_ne_rb : (('\"' : Char) = rbrace) = False := by decide

theorem parseValue_scalar (fuel : Nat) (c : Char) (cs : List Char)
    (h1 : c ≠ '[') (h2 : c ≠ lbrace) :
    parseValue (fuel + 1) (c :: cs) = parseScalar (c :: cs) := by
  rw [parseValue]
  simp only [if_neg h1, if_neg h2]

theorem parseScalar_num (c : Char) (cs : List Char)
    (h1 : c ≠ 'n') (h2 : c ≠ 't') (h3 : c ≠ 'f') (h4 : c ≠ '\"') :
    parseScalar (c :: cs) = parseNum c cs := by
  rw [parseScalar.eq_def]
  simp only [if_neg h1, if_neg h2, if_neg h3, if_neg h4]

theorem parseNum_minus (m : Nat) (rest : List Char) (hrest : noDigitHead rest = true) :
    parseNum '-' (natDigits m ++ rest) = some (.num (-(m : Int)), rest) := by
  obtain ⟨⟨d, t, hdt, hdig⟩, _, _⟩ := natDigitsGo_shape (m + 1) m (by omega)
  have hm := parse_natDigits m rest hrest
  rw [parseNum.eq_def, natDigits, hdt, List.cons_append]
  rw [if_pos rfl]
  simp only [hdig, reduceIte]
  rw [← List.cons_append, ← hdt, ← natDigits, hm]

theorem parseNum_digits (m : Nat) (rest : List Char) (hrest : noDigitHead rest = true)
    (d : Char) (t : List Char) (hdt : natDigits m = d :: t) :
    parseNum d (t ++ rest) = some (.num (m : Int), rest) := by
  have hdig : isDigitChar d = true := by
    obtain ⟨⟨d2, t2, hdt2, hdig2⟩, _, _⟩ := natDigitsGo_shape (m + 1) m (by omega)
    rw [natDigits] at hdt
    rw [hdt] at hdt2
    injection hdt2 with h1 h2
    rw [h1]
    exact hdig2
  obtain ⟨_, _, _, _, hmin, _, _⟩ := digit_dispatch d hdig
  have hm := parse_natDigits m rest hrest
  rw [parseNum.eq_def]
  simp only [if_neg hmin, hdig, reduceIte]
  rw [hdt, List.cons_append, parseDigitsGo] at hm
  simp only [hdig, reduceIte, Nat.zero_mul, Nat.zero_add] at hm
  rw [hm]

theorem stripLit_self (lit : List Char) : ∀ rest, stripLit lit (lit ++ rest) = some rest := by
  induction lit with
  | nil => intro rest; rfl
  | cons c cs ih =>
    intro rest
    rw [List.cons_append, stripLit, if_pos rfl]
    exact ih rest

theorem parseScalar_quote (cs : List Char) : parseScalar ('\"' :: cs) = parseStringTok cs := by
  rw [parseScalar.eq_def]
  simp only [if_neg (show ¬(('\"' : Char) = 'n') by decide),
    if_neg (show ¬(('\"' : Char) = 't') by decide),
    if_neg (show ¬(('\"' : Char) = 'f') by decide),
    if_pos (rfl : ('\"' : Char) = '\"'), if_true]

theorem skipWs_ws {c : Char} (cs : List Char) (h : isWsChar c = true) :
    skipWs (c :: cs) = skipWs cs := by
  simp [skipWs, h]

theorem skipWs_colon (cs : List Char) : skipWs (':' :: cs) = ':' :: cs :=
  skipWs_cons_false cs (by decide)

theorem skipWs_comma (cs : List Char) : skipWs (',' :: cs) = ',' :: cs :=
  skipWs_cons_false cs (by decide)

theorem skipWs_rbracket (cs : List Char) : skipWs (']' :: cs) = ']' :: cs :=
  skipWs_cons_false cs (by decide)

theorem skipWs_rbrace (cs : List Char) : skipWs (rbrace :: cs) = rbrace :: cs :=
  skipWs_cons_false cs (by decide)

theorem skipWs_space (cs : List Char) : skipWs (' ' :: cs) = skipWs cs :=
  skipWs_ws cs (by decide)

theorem skipWs_quote (cs : List Char) : skipWs ('\"' :: cs) = '\"' :: cs :=
  skipWs_cons_false cs (by decide)

theorem parse_enc (fuel : Nat) :
    (∀ j rest, sizeJ j < fuel → noDigitHead rest = true →
        parseValue fuel (encJson j ++ rest) = some (j, rest)) ∧
    (∀ xs rest, sizeL xs < fuel →
        parseArrRest fuel (encArrRest xs ++ (']' :: rest)) = some (xs, rest)) ∧
    (∀ kv rest, sizeM kv < fuel → noDigitHead rest = true →
        parseMember fuel (encMember kv ++ rest) = some (kv, rest)) ∧
    (∀ kvs rest, sizeO kvs < fuel →
        parseObjRest fuel (encObjRest kvs ++ (rbrace :: rest)) = some (kvs, rest)) := by
  induction fuel with
  | zero =>
    refine ⟨?_, ?_, ?_, ?_⟩
    · intro j rest hs _
      have := sizeJ_pos j
      omega
    · intro xs rest hs
      have := sizeL_pos xs
      omega
    · intro kv rest hs _
      simp [sizeM] at hs
    · intro kvs rest hs
      have := sizeO_pos kvs
      omega
  | succ fuel ih =>
    obtain ⟨ihv, iha, ihm, iho⟩ := ih
    refine ⟨?_, ?_, ?_, ?_⟩
    · intro j rest hs hrest
      cases j with
      | null =>
        rw [show encJson .null ++ rest = 'n' :: (['u', 'l', 'l'] ++ rest) from rfl]
        rw [parseValue_scalar fuel _ _ (by decide) (by decide)]
        rw [parseScalar.eq_def]
        simp only [if_pos (rfl : ('n' : Char) = 'n'), if_true, stripLit_self]
      | bool b =>
        cases b with
        | false =>
          rw [show encJson (.bool false) ++ rest = 'f' :: (['a', 'l', 's', 'e'] ++ rest) from rfl]
          rw [parseValue_scalar fuel _ _ (by decide) (by decide)]
          rw [parseScalar.eq_def]
          simp only [if_neg (show ¬(('f' : Char) = 'n') by decide),
            if_neg (show ¬(('f' : Char) = 't') by decide),
            if_pos (rfl : ('f' : Char) = 'f'), if_true, stripLit_self]
        | true =>
          rw [show encJson (.bool true) ++ rest = 't' :: (['r', 'u', 'e'] ++ rest) from rfl]
          rw [parseValue_scalar fuel _ _ (by decide) (by decide)]
          rw [parseScalar.eq_def]
          simp only [if_neg (show ¬(('t' : Char) = 'n') by decide),
            if_pos (rfl : ('t' : Char) = 't'), if_true, stripLit_self]
      | num i =>
        by_cases hneg : i < 0
        · rw [show encJson (.num i) ++ rest = '-' :: (natDigits i.natAbs ++ rest) from by
            simp [encJson, encInt, hneg]]
          rw [parseValue_scalar fuel _ _ (by decide) (by decide)]
          rw [parseScalar_num _ _ (by decide) (by decide) (by decide) (by decide)]
          rw [parseNum_minus _ _ hrest]
          have hi : Json.num (-((i.natAbs : Nat) : Int)) = Json.num i := by
            congr 1
            omega
          rw [hi]
        · obtain ⟨⟨d, t, hdt0, hdig⟩, _, _⟩ := natDigitsGo_shape (i.toNat + 1) i.toNat (by omega)
          have hdt : natDigits i.toNat = d :: t := by rw [natDigits, hdt0]
          obtain ⟨h1, h2, h3, h4, h5, h6, h7⟩ := digit_dispatch d hdig
          rw [show encJson (.num i) ++ rest = d :: (t ++ rest) from by
            simp [encJson, encInt, hneg, hdt]]
          rw [parseValue_scalar fuel _ _ h6 h7]
          rw [parseScalar_num _ _ h1 h2 h3 h4]
          rw [parseNum_digits i.toNat rest hrest d t hdt]
          have hi : Json.num ((i.toNat : Nat) : Int) = Json.num i := by
            congr 1
            omega
          rw [hi]
      | str s =>
        rw [show encJson (.str s) ++ rest = '\"' :: (escList s.data ++ ('\"' :: rest)) from by
          simp [encJson, encStr]]
        rw [parseValue_scalar fuel _ _ (by decide) (by decide)]
        rw [parseScalar_quote, parseStringTok, parseStringRest_escList]
      | arr xs =>
        cases xs with
        | nil =>
          rw [show encJson (.arr []) ++ rest = '[' :: (']' :: rest) from rfl]
          rw [parseValue, if_pos rfl, skipWs_rbracket]
          simp only [if_pos (rfl : (']' : Char) = ']'), if_true]
        | cons x xs =>
          obtain ⟨c0, t0, he, hstrip, hbr, hcm⟩ := encJson_head x
          have hws := strip_false_imp_ws_false _ hstrip
          have hnd := noDigitHead_encArrRest xs rest
          have hpx := sizeJ_pos x
          have hpl := sizeL_pos xs
          simp only [sizeJ, sizeL] at hs
          have hsx : sizeJ x < fuel := by omega
          have hsl : sizeL xs < fuel := by omega
          rw [show encJson (.arr (x :: xs)) ++ rest =
              '[' :: (encJson x ++ (encArrRest xs ++ (']' :: rest))) from by
            simp [encJson]]
          rw [parseValue, if_pos rfl]
          rw [he, List.cons_append, skipWs_cons_false _ hws]
          simp only [if_neg hbr]
          rw [← List.cons_append, ← he]
          rw [ihv x _ hsx hnd]
          simp only [iha xs rest hsl]
      | obj kvs =>
        cases kvs with
        | nil =>
          rw [show encJson (.obj []) ++ rest = lbrace :: (rbrace :: rest) from rfl]
          rw [parseValue]
          rw [if_neg (by decide : ¬(lbrace = '[')), if_pos rfl, skipWs_rbrace]
          simp only [if_pos (rfl : rbrace = rbrace), if_true]
        | cons kv kvs =>
          have hmember : ∃ mt, encMember kv = '\"' :: mt := by
            obtain ⟨k, v⟩ := kv
            refine ⟨escList k.data ++ ('\"' :: (':' :: (' ' :: encJson v))), ?_⟩
            simp [encMember, encStr]
          obtain ⟨mt, hm⟩ := hmember
          have hnd := noDigitHead_encObjRest kvs rest
          have hpv := sizeJ_pos kv.2
          have hpo := sizeO_pos kvs
          simp only [sizeJ, sizeO] at hs
          have hsm : sizeM kv < fuel := by
            simp only [sizeM]
            omega
          have hso : sizeO kvs < fuel := by omega
          rw [show encJson (.obj (kv :: kvs)) ++ rest =
              lbrace :: (encMember kv ++ (encObjRest kvs ++ (rbrace :: rest))) from by
            simp [encJson]]
          rw [parseValue]
          rw [if_neg (by decide : ¬(lbrace = '[')), if_pos rfl]
          rw [hm, List.cons_append, skipWs_quote]
          simp only [if_neg (by decide : ¬(('\"' : Char) = rbrace))]
          rw [← List.cons_append, ← hm]
          rw [ihm kv _ hsm hnd]
          simp only [iho kvs rest hso]
    · intro xs rest hs
      cases xs with
      | nil =>
        rw [show encArrRest ([] : List Json) ++ (']' :: rest) = ']' :: rest from rfl]
        rw [parseArrRest, skipWs_rbracket]
        simp only [if_pos (rfl : (']' : Char) = ']'), if_true]
      | cons x xs =>
        obtain ⟨c0, t0, he, hstrip, hbr, hcm⟩ := encJson_head x
        have hws := strip_false_imp_ws_false _ hstrip
        have hnd := noDigitHead_encArrRest xs rest
        have hpx := sizeJ_pos x
        have hpl := sizeL_pos xs
        simp only [sizeL] at hs
        have hsx : sizeJ x < fuel := by omega
        have hsl : sizeL xs < fuel := by omega
        rw [show encArrRest (x :: xs) ++ (']' :: rest) =
            ',' :: (' ' :: (encJson x ++ (encArrRest xs ++ (']' :: rest)))) from by
          simp [encArrRest]]
        rw [parseArrRest, skipWs_comma]
        simp only [if_neg (by decide : ¬((',' : Char) = ']')),
          if_pos (rfl : (',' : Char) = ','), if_true, skipWs_space]
        rw [he, List.cons_append, skipWs_cons_false _ hws]
        rw [← List.cons_append, ← he]
        rw [ihv x _ hsx hnd]
        simp only [iha xs rest hsl]
    · intro kv rest hs hrest
      obtain ⟨k, v⟩ := kv
      obtain ⟨c0, t0, he, hstrip, hbr, hcm⟩ := encJson_head v
      have hws := strip_false_imp_ws_false _ hstrip
      simp only [sizeM] at hs
      have hsv : sizeJ v < fuel := by omega
      rw [show encMember (k, v) ++ rest =
          '\"' :: (escList k.data ++ ('\"' :: (':' :: (' ' :: (encJson v ++ rest))))) from by
        simp [encMember, encStr]]
      rw [parseMember, if_pos rfl, parseStringRest_escList]
      simp only [skipWs_colon, if_pos (rfl : (':' : Char) = ':'), if_true, skipWs_space]
      rw [he, List.cons_append, skipWs_cons_false _ hws]
      rw [← List.cons_append, ← he]
      simp only [ihv v rest hsv hrest]
    · intro kvs rest hs
      cases kvs with
      | nil =>
        rw [show encObjRest ([] : List (String × Json)) ++ (rbrace :: rest) = rbrace :: rest
          from rfl]
        rw [parseObjRest, skipWs_rbrace]
        simp only [if_pos (rfl : rbrace = rbrace), if_true]
      | cons kv kvs =>
        have hmember : ∃ mt, encMember kv = '\"' :: mt := by
          obtain ⟨k, v⟩ := kv
          refine ⟨escList k.data ++ ('\"' :: (':' :: (' ' :: encJson v))), ?_⟩
          simp [encMember, encStr]
        obtain ⟨mt, hm⟩ := hmember
        have hnd := noDigitHead_encObjRest kvs rest
        have hpv := sizeJ_pos kv.2
        have hpo := sizeO_pos kvs
        simp only [sizeO] at hs
        have hsm : sizeM kv < fuel := by
          simp only [sizeM]
          omega
        have hso : sizeO kvs < fuel := by omega
        rw [show encObjRest (kv :: kvs) ++ (rbrace :: rest) =
            ',' :: (' ' :: (encMember kv ++ (encObjRest kvs ++ (rbrace :: rest)))) from by
          simp [encObjRest]]
        rw [parseObjRest, skipWs_comma]
        simp only [if_neg (by decide : ¬((',' : Char) = rbrace)),
          if_pos (rfl : (',' : Char) = ','), if_true, skipWs_space]
        rw [hm, List.cons_append, skipWs_quote]
        rw [← List.cons_append, ← hm]
        rw [ihm kv _ hsm hnd]
        simp only [iho kvs rest hso]

theorem loadsJson_encJson (j : Json) : loadsJson (encJson j) = some j := by
  obtain ⟨c0, t0, he, hstrip, _, _⟩ := encJson_head j
  have hws := strip_false_imp_ws_false _ hstrip
  have hsize : sizeJ j < 2 * (encJson j).length + 2 := by
    have := sizeJ_le j
    omega
  have h := (parse_enc (2 * (encJson j).length + 2)).1 j [] hsize (by decide)
  rw [List.append_nil] at h
  unfold loadsJson
  rw [he, skipWs_cons_false _ hws, ← he, h]
  rfl

theorem dropStrip_cons_false {c : Char} (cs : List Char) (h : pyStripChar c = false) :
    dropStrip (c :: cs) = c :: cs := by
  simp [dropStrip, h]

theorem dropStrip_cons_true {c : Char} (cs : List Char) (h : pyStripChar c = true) :
    dropStrip (c :: cs) = dropStrip cs := by
  simp [dropStrip, h]

theorem pyStrip_enc_newline (j : Json) : pyStrip (encJson j ++ ['\n']) = encJson j := by
  obtain ⟨c0, t0, he, hstrip, _, _⟩ := encJson_head j
  obtain ⟨t1, c1, hl, hstrip1⟩ := encJson_last j
  unfold pyStrip
  rw [he, List.cons_append, dropStrip_cons_false _ hstrip, ← List.cons_append, ← he]
  have hrev : (encJson j ++ ['\n']).reverse = '\n' :: (encJson j).reverse := by
    simp
  rw [hrev, dropStrip_cons_true _ (by decide)]
  have hrev2 : (encJson j).reverse = c1 :: t1.reverse := by
    rw [hl]
    simp
  rw [hrev2, dropStrip_cons_false _ hstrip1, ← hrev2, List.reverse_reverse]

theorem printable_ne_newline {c : Char} (h : printableChar c = true) : ¬(c = '\n') := by
  simp only [printableChar, Bool.and_eq_true, decide_eq_true_eq] at h
  refine char_ne_of_toNat_ne ?_
  have : ('\n' : Char).toNat = 10 := by decide
  omega

theorem firstLineOf_id (cs : List Char) (h : ∀ c ∈ cs, printableChar c = true) :
    firstLineOf cs = cs := by
  induction cs with
  | nil => rfl
  | cons c cs ih =>
    rw [firstLineOf, if_neg (printable_ne_newline (h c (List.mem_cons_self c cs)))]
    rw [ih (fun d hd => h d (List.mem_cons_of_mem c hd))]

theorem read_line_send (j : Json) : read_line_result (send_model j) = some j := by
  unfold read_line_result send_model
  rw [pyStrip_enc_newline, firstLineOf_id _ (encJson_printable j), loadsJson_encJson]

/-! ## Byte counting for ASCII output -/

theorem byteLen_eq_length (cs : List Char) (h : ∀ c ∈ cs, printableChar c = true) :
    byteLen cs = cs.length := by
  induction cs with
  | nil => rfl
  | cons c cs ih =>
    have hc := h c (List.mem_cons_self c cs)
    simp only [printableChar, Bool.and_eq_true, decide_eq_true_eq] at hc
    rw [byteLen, List.length_cons, ih (fun d hd => h d (List.mem_cons_of_mem c hd))]
    unfold charBytes
    rw [if_pos (by omega : c.toNat < 128)]
    omega

/-! ## Daemon trace facts -/

theorem drain_all_recv (cs : List (List Char)) : (drain cs).1.all Ev.isRecv = true := by
  induction cs with
  | nil => rfl
  | cons c cs ih =>
    rw [drain]
    cases read_line_result c with
    | none => rfl
    | some j =>
      simp only [List.all_cons, Bool.and_eq_true]
      exact ⟨rfl, ih⟩

theorem handleConn_open (i : Int) (uri : String) (more : List (List Char)) :
    handleConn (send_model (openRequest i uri) :: more) =
      (.recvEv (send_model (openRequest i uri)) ::
        (sendEvents (.obj [("jsonrpc", .str "2.0"), ("id", .num i), ("result", .str "success")]) ++
          sendEvents (the_beautiful_edit (.str uri)) ++ (drain more).1),
       (drain more).2) := by
  rw [handleConn, read_line_send (openRequest i uri)]
  simp only [show response_model (openRequest i uri) =
      some (.obj [("jsonrpc", .str "2.0"), ("id", .num i), ("result", .str "success")]) from rfl,
    show pyGet2 (openRequest i uri) "params" "uri" = some (.str uri) from rfl]
  simp [List.append_assoc]

theorem firstLineOf_append_newline (cs rest : List Char)
    (h : ∀ c ∈ cs, printableChar c = true) :
    firstLineOf (cs ++ '\n' :: rest) = cs := by
  induction cs with
  | nil => rfl
  | cons c cs ih =>
    rw [List.cons_append, firstLineOf,
      if_neg (printable_ne_newline (h c (List.mem_cons_self c cs)))]
    rw [ih (fun d hd => h d (List.mem_cons_of_mem c hd))]

/-! # Claim theorems -/

/-- C1: for every input file path (hence every uri) and every message type,
the Content-Length value printed by dummy-jsonrpc.py equals the number of
UTF-8 bytes of the JSON body that follows the blank line: the header is
followed by exactly byteLen body bytes of JSON (plus the newline print
appends after the frame). -/
theorem c1_content_length_thm (t : MsgType) (uri : String) :
    dummyOutput t uri =
      ("Content-Length: ".data ++ natDigits (byteLen (message_json t uri))) ++
      ('\r' :: '\n' :: '\r' :: '\n' :: message_json t uri) ++ ['\n'] := by
  unfold dummyOutput
  rw [show byteLen (message_json t uri) = (message_json t uri).length from
    byteLen_eq_length _ (encJson_printable (dummyMessage t uri))]

/-- C2: decoding the encoding of any representable message yields the
message back: read_line of fake-daemon.py applied to the bytes produced by
send (newline-delimited framing) returns exactly the sent JSON value. -/
theorem c2_round_trip_thm (m : Json) : read_line_result (send_model m) = some m :=
  read_line_send m

/-- C3 counterexample: read_line does not consume exactly one frame without
discarding later bytes.  With pending bytes holding the two frames 1 and 2
and recv delivering all four bytes, read_line returns 1 but the connection
retains nothing: the bytes of the second frame are discarded, refuting the
claim that bytes belonging to later frames are preserved. -/
theorem c3_counterexample :
    ¬(∀ (pending : List Char) (k : Nat) (j : Json) (frame1 rest : List Char),
        pending = frame1 ++ rest →
        read_line_result frame1 = some j →
        (read_line_step pending k).1 = some j →
        (read_line_step pending k).2 = rest) := by
  intro h
  have h2 := h ("1\n2\n".data) 4 (.num 1) ("1\n".data) ("2\n".data) rfl rfl rfl
  rw [show (read_line_step ("1\n2\n".data) 4).2 = [] from rfl] at h2
  exact absurd h2 (by decide)

/-- C3 amended: read_line consumes the whole recv chunk (up to 1024 bytes)
and parses only the first newline-delimited JSON object in it; any further
bytes of the chunk, including complete later frames, are dropped.  Stated
for two back-to-back frames delivered in one recv: the first message is
returned and nothing remains buffered. -/
theorem c3_amended_thm (j1 j2 : Json)
    (hk : (send_model j1 ++ send_model j2).length ≤ 1024) :
    read_line_step (send_model j1 ++ send_model j2)
        ((send_model j1 ++ send_model j2).length) = (some j1, []) := by
  obtain ⟨t2, c2, hl2, hstrip2⟩ := encJson_last j2
  obtain ⟨c0, t0, he1, hstrip1, _, _⟩ := encJson_head j1
  have hmin : min ((send_model j1 ++ send_model j2).length) 1024 =
      (send_model j1 ++ send_model j2).length := Nat.min_eq_left hk
  unfold read_line_step recvChunk
  rw [hmin, List.take_length, List.drop_length]
  unfold read_line_result
  have hshape : send_model j1 ++ send_model j2 =
      (encJson j1 ++ ('\n' :: encJson j2)) ++ ['\n'] := by
    simp [send_model]
  have hstrip : pyStrip (send_model j1 ++ send_model j2) =
      encJson j1 ++ ('\n' :: encJson j2) := by
    rw [hshape]
    unfold pyStrip
    have hfront : dropStrip ((encJson j1 ++ ('\n' :: encJson j2)) ++ ['\n']) =
        (encJson j1 ++ ('\n' :: encJson j2)) ++ ['\n'] := by
      rw [he1]
      simp only [List.cons_append, List.append_assoc]
      exact dropStrip_cons_false _ hstrip1
    rw [hfront]
    have hrev : ((encJson j1 ++ ('\n' :: encJson j2)) ++ ['\n']).reverse =
        '\n' :: (encJson j1 ++ ('\n' :: encJson j2)).reverse := by
      simp
    rw [hrev, dropStrip_cons_true _ (by decide)]
    have hrev2 : (encJson j1 ++ ('\n' :: encJson j2)).reverse =
        c2 :: (encJson j1 ++ ('\n' :: t2)).reverse := by
      rw [hl2]
      simp
    rw [hrev2, dropStrip_cons_false _ hstrip2, ← hrev2, List.reverse_reverse]
  rw [hstrip]
  rw [firstLineOf_append_newline _ _ (encJson_printable j1), loadsJson_encJson]

/-- C3 amended witness: the two concrete frames 1 and 2 in one chunk. -/
theorem c3_amended_witness :
    ((send_model (.num 1) ++ send_model (.num 2)).length ≤ 1024) ∧
    read_line_step (send_model (.num 1) ++ send_model (.num 2))
        ((send_model (.num 1) ++ send_model (.num 2)).length) = (some (.num 1), []) :=
  ⟨by decide, c3_amended_thm (.num 1) (.num 2) (by decide)⟩

/-- C4 counterexample: the daemon does not validate that params.uri is
present and non-empty.  An open request whose uri is the empty string gets
the very same success response, refuting the claim that a success reply
implies a non-empty uri. -/
theorem c4_counterexample :
    ¬(∀ (m r : Json), response_model m = some r →
        ∃ u : String, pyGet2 m "params" "uri" = some (.str u) ∧ u ≠ "") := by
  intro h
  obtain ⟨u, hu, hne⟩ := h
    (.obj [("jsonrpc", .str "2.0"), ("id", .num 1), ("method", .str "open"),
           ("params", .obj [("uri", .str "")])])
    (.obj [("jsonrpc", .str "2.0"), ("id", .num 1), ("result", .str "success")]) rfl
  rw [show pyGet2
      (.obj [("jsonrpc", .str "2.0"), ("id", .num 1), ("method", .str "open"),
             ("params", .obj [("uri", .str "")])]) "params" "uri" =
      some (Json.str "") from rfl] at hu
  injection hu with hu2
  injection hu2 with hu3
  exact hne hu3.symm

/-- C4 amended: on receiving an open request carrying an id, fake-daemon.py
replies with a success Response whose id equals the id of the request and
whose result is the string success, performing no validation of params.uri
(for a request with id 1 the response is the Scenario A response).  The
reply is the second and third event on the wire, right after the read. -/
theorem c4_amended_thm (i : Int) (uri : String) (more : List (List Char)) :
    ∃ tail,
      (handleConn (send_model (openRequest i uri) :: more)).1 =
        .recvEv (send_model (openRequest i uri)) ::
        .sendEv (encJson (.obj [("jsonrpc", .str "2.0"), ("id", .num i),
          ("result", .str "success")])) ::
        .sendEv ['\n'] :: tail := by
  rw [handleConn_open]
  refine ⟨.sendEv (encJson (the_beautiful_edit (.str uri))) :: .sendEv ['\n'] ::
    (drain more).1, ?_⟩
  simp [sendEvents]

/-- C5 counterexample: a peer that connects and immediately closes the
stream makes recv return empty bytes, json.loads raises, and the process
dies: the run is crashed and a second queued connection is never accepted,
refuting clean per-connection termination. -/
theorem c5_counterexample :
    ¬(∀ conn2 : List (List Char),
        (serverRun [[([] : List Char)], conn2]).outcome ≠ ConnEnd.crashed ∧
        (serverRun [[([] : List Char)], conn2]).accepted = 2) := by
  intro h
  exact (h []).1 rfl

/-- C5 amended: when the stream of the first connection closes (recv yields
empty bytes), json.loads raises an uncaught exception that terminates the
whole process; the daemon never accepts a subsequent connection, no matter
how many are queued. -/
theorem c5_amended_thm (rest : List (List Char)) (conns : List (List (List Char))) :
    (serverRun (([] :: rest) :: conns)).outcome = ConnEnd.crashed ∧
    (serverRun (([] :: rest) :: conns)).accepted = 1 := by
  have h : (handleConn ([] :: rest)).2 = ConnEnd.crashed := rfl
  rw [serverRun, h]
  exact ⟨rfl, rfl⟩

/-- C6 counterexample: the pushed edit message is not one fixed value across
all open requests: two opens with different uris produce different edit
messages, since the uri of the open request is copied into it. -/
theorem c6_counterexample :
    ¬(∀ u1 u2 : Json, the_beautiful_edit u1 = the_beautiful_edit u2) := by
  intro h
  have h0 : pyGet2 (the_beautiful_edit (.str "a")) "params" "uri" =
      pyGet2 (the_beautiful_edit (.str "b")) "params" "uri" := by
    rw [h (.str "a") (.str "b")]
  rw [show pyGet2 (the_beautiful_edit (.str "a")) "params" "uri" =
      some (Json.str "a") from rfl,
    show pyGet2 (the_beautiful_edit (.str "b")) "params" "uri" =
      some (Json.str "b") from rfl] at h0
  injection h0 with h1
  injection h1 with h2
  exact absurd h2 (by decide)

/-- C6 amended: the edit message fake-daemon.py pushes is hard-coded except
for its uri: it is a Notification (no id) with method edit whose params
carry revision 0 and the one fixed delta (replace range (0,0)-(0,1) with
AaA), while params.uri echoes the uri value of the received open request. -/
theorem c6_amended_thm (u : Json) :
    pyDictGet (the_beautiful_edit u) "method" = some (.str "edit") ∧
    pyGet2 (the_beautiful_edit u) "params" "revision" = some (.num 0) ∧
    pyGet2 (the_beautiful_edit u) "params" "delta" = some fixedDeltaJson ∧
    pyGet2 (the_beautiful_edit u) "params" "uri" = some u ∧
    pyDictGet (the_beautiful_edit u) "id" = none :=
  ⟨rfl, rfl, rfl, rfl, rfl⟩

/-- C7: after its two send calls for the edit message, fake-daemon.py never
writes to the connection again: whatever the peer sends in whatever chunks,
every event after the first five (one read, two sends for the response, two
sends for the edit) is a read.  Traces that crash earlier are shorter than
five events and contain no later send either. -/
theorem c7_read_only_drain_thm (chunks : List (List Char)) :
    ((handleConn chunks).1.drop 5).all Ev.isRecv = true := by
  cases chunks with
  | nil => rfl
  | cons c1 rest =>
    rw [handleConn]
    cases hro : read_line_result c1 with
    | none => rfl
    | some o =>
      cases hresp : response_model o with
      | none => simp [hresp]
      | some resp =>
        cases hu : pyGet2 o "params" "uri" with
        | none => simp [hresp, hu, sendEvents]
        | some uriVal =>
          simp [hresp, hu, sendEvents, drain_all_recv rest]

/-- C8: for every resolved input file path, the uri field inside params of
the generated message (open or edit) is the string file:// followed by that
resolved path. -/
theorem c8_file_uri_thm (t : MsgType) (resolved : String) :
    pyGet2 (dummyMessage t (dummyUri resolved)) "params" "uri" =
      some (.str ("file://" ++ resolved)) := by
  cases t <;> rfl

/-- C9: exactly one of the two scripts puts an id on its edit message: the
edit message of dummy-jsonrpc.py carries id 2 (a Request), while
the_beautiful_edit of fake-daemon.py has no id field (a Notification),
whatever uri values both carry. -/
theorem c9_edit_id_thm (uri : String) (uriVal : Json) :
    pyDictGet (dummyMessage .editMsg uri) "id" = some (.num 2) ∧
    pyDictGet (the_beautiful_edit uriVal) "id" = none :=
  ⟨rfl, rfl⟩

/-- C10 counterexample: the startup block does not delete every kind of
existing entry at the socket path: when a directory sits there, os.remove
raises IsADirectoryError instead of deleting it, refuting the claim that
any entry whatsoever is removed. -/
theorem c10_counterexample :
    ¬(∀ fs : String → Option FsEntry,
        ∃ fs2, removeIfExists fs = .ok fs2 ∧ fs2 socket_path = none ∧
          ∀ p, p ≠ socket_path → fs2 p = fs p) := by
  intro h
  obtain ⟨fs2, hok, _, _⟩ :=
    h (fun p => if p = socket_path then some FsEntry.dir else none)
  rw [show removeIfExists (fun p => if p = socket_path then some FsEntry.dir else none) =
      RemoveOutcome.isADirectoryError from rfl] at hok
  exact RemoveOutcome.noConfusion hok

/-- C10 amended: before binding, the script deletes whatever non-directory
entry exists at the hard-coded socket path and touches no other path; if
the entry is a directory, os.remove raises and nothing is deleted. -/
theorem c10_amended_thm (fs : String → Option FsEntry) :
    (fs socket_path ≠ some FsEntry.dir →
      ∃ fs2, removeIfExists fs = .ok fs2 ∧ fs2 socket_path = none ∧
        ∀ p, p ≠ socket_path → fs2 p = fs p) ∧
    (fs socket_path = some FsEntry.dir → removeIfExists fs = .isADirectoryError) := by
  constructor
  · intro h
    unfold removeIfExists
    cases he : fs socket_path with
    | none => exact ⟨fs, rfl, he, fun p _ => rfl⟩
    | some e =>
      cases e with
      | dir => exact absurd he h
      | file =>
        refine ⟨_, rfl, ?_, ?_⟩
        · simp
        · intro p hp
          simp [hp]
      | sock =>
        refine ⟨_, rfl, ?_, ?_⟩
        · simp
        · intro p hp
          simp [hp]
  · intro h
    unfold removeIfExists
    rw [h]

/-- C10 amended witness: a socket file at the socket path is removed and a
distinct path is untouched. -/
theorem c10_amended_witness :
    ((fun p => if p = socket_path then some FsEntry.sock else none) socket_path ≠
      some FsEntry.dir) ∧
    (∃ fs2,
      removeIfExists (fun p => if p = socket_path then some FsEntry.sock else none) = .ok fs2 ∧
      fs2 socket_path = none ∧
      ∀ p, p ≠ socket_path →
        fs2 p = (fun p => if p = socket_path then some FsEntry.sock else none) p) :=
  ⟨by simp, (c10_amended_thm (fun p => if p = socket_path then some FsEntry.sock else none)).1
    (by simp)⟩
